import Mathlib

/-!
# Verification of the dspy-star-history detection & correlation pipeline

Shallow embedding of the three scripts
`analyze_fake_real_correlation.py`, `run_advanced_on_collected.py` and
`create_star_timeline_graph.py`.

Modelling conventions:
* UTC timestamps are integers counting seconds since the Unix epoch
  (GitHub ISO-8601 `Z` timestamps have whole-second granularity, and
  `datetime` subtraction is exact at this granularity).
* Python `set` becomes `Finset String`; dict-of-counts becomes a count
  over a `List.filter`.
* `timedelta.days` floors towards minus infinity, which is `Int.fdiv`
  by 86400.
* Gap comparisons such as `total_seconds() / 60 <= threshold` are done
  in `ℚ`; for whole-second inputs the float computation agrees (the
  quotient is far from the rounding granularity of an IEEE double near
  the threshold).
* A `KeyError` raised by `account['account_created']` on a record
  without that key is modelled by `Except.error`.
-/

namespace StarHistory

/-! ## Calendar arithmetic

`date.isocalendar()` needs the proleptic Gregorian calendar.  Day 0 is
1970-01-01, a Thursday.  `yearOfDay`/`jan1Day` follow the standard
civil-from-days / days-from-civil computations. -/

/-- Calendar year containing day number `z` (days since 1970-01-01). -/
def yearOfDay (z : ℤ) : ℤ :=
  let z2 := z + 719468
  let era := z2.fdiv 146097
  let doe := z2 - era * 146097
  let yoe := (doe - doe.fdiv 1460 + doe.fdiv 36524 - doe.fdiv 146096).fdiv 365
  let y := yoe + era * 400
  let doy := doe - (365 * yoe + yoe.fdiv 4 - yoe.fdiv 100)
  let mp := (5 * doy + 2).fdiv 153
  if 10 ≤ mp then y + 1 else y

/-- Day number of January 1 of year `y`. -/
def jan1Day (y : ℤ) : ℤ :=
  let ym := y - 1
  let era := ym.fdiv 400
  let yoe := ym - era * 400
  era * 146097 + (yoe * 365 + yoe.fdiv 4 - yoe.fdiv 100 + 306) - 719468

/-- ISO-8601 calendar (year, week number) of day number `d`, as returned
by `date.isocalendar()` (weekday dropped): the ISO week of `d` is the
week of its Thursday, and week 1 holds the year's first Thursday. -/
def isoWeekOf (d : ℤ) : ℤ × ℤ :=
  let th := d + 3 - (d + 3).fmod 7
  let y := yearOfDay th
  (y, (th - jan1Day y).fdiv 7 + 1)

/-- Calendar day of a timestamp, as computed by `datetime.date()` on a
UTC timestamp. -/
def dayOf (ts : ℤ) : ℤ := ts.fdiv 86400

/-- The ISO week key of a timestamp.  The source formats it as the
string `f"{year}-W{week:02d}"`; for the four-digit years realizable in
the data the string order and equality agree with the lexicographic
order on the (year, week) pair, which we use directly. -/
def weekKeyOf (ts : ℤ) : ℤ ×ₗ ℤ := toLex (isoWeekOf (dayOf ts))

/-! ## Data model -/

/-- `status` field of an enriched record; the scripts only ever compare
it with the string `deleted`. -/
inductive AccountStatus where
  | active
  | deleted
  | unknown
deriving DecidableEq, Repr

/-- One enriched star-event record (a line of the JSONL snapshot).
Optional numeric fields default to 0 and `is_suspicious` to false, as
`acc.get(..., 0)` / truthiness does in the scripts; `account_created`
is optional (`none` models an absent key). -/
structure Account where
  username : String
  starred_at : ℤ
  account_created : Option ℤ := none
  status : AccountStatus := .active
  is_suspicious : Bool := false
  public_repos : ℕ := 0
  followers : ℕ := 0
  following : ℕ := 0
deriving DecidableEq, Repr

/-- Decidable equality for `Except` results, by explicit matching so
that concrete detector outcomes reduce under `decide`. -/
instance {ε α : Type} [DecidableEq ε] [DecidableEq α] : DecidableEq (Except ε α)
  | .error a, .error b =>
    if h : a = b then .isTrue (by rw [h])
    else .isFalse (fun hh => h (Except.error.inj hh))
  | .error _, .ok _ => .isFalse (fun hh => Except.noConfusion hh)
  | .ok _, .error _ => .isFalse (fun hh => Except.noConfusion hh)
  | .ok a, .ok b =>
    if h : a = b then .isTrue (by rw [h])
    else .isFalse (fun hh => h (Except.ok.inj hh))

/-- `acc.get('is_suspicious') or acc.get('status') == 'deleted'`: the
basic-flag condition reused verbatim by all three scripts. -/
def basicFlag (a : Account) : Bool :=
  a.is_suspicious || decide (a.status = AccountStatus.deleted)

/-- The Basic Flag Detector's username set (`basic_fake`). -/
def basicSet (accounts : List Account) : Finset String :=
  ((accounts.filter basicFlag).map Account.username).toFinset

/-- `basic_legit`: the records not flagged by the basic detector; all
advanced detectors draw their candidates from this pool. -/
def basicLegit (accounts : List Account) : List Account :=
  accounts.filter (fun a => !basicFlag a)

/-! ## Temporal Cluster Detector

`detect_temporal_clustering` (identical in `analyze_fake_real_correlation.py`
and `create_star_timeline_graph.py`): sort the non-basic events by
`starred_at`, then grow clusters by the gap (in minutes) since the last
event added to the current cluster.  Python's `list.sort` is stable, so
we sort with a stable insertion sort on the timestamp. -/

/-- Stable insertion into a list sorted by ascending timestamp. -/
def insortTS (e : String × ℤ) : List (String × ℤ) → List (String × ℤ)
  | [] => [e]
  | x :: xs => if e.2 ≤ x.2 then e :: x :: xs else x :: insortTS e xs

/-- Stable sort by ascending timestamp (`timestamps.sort(key=...)`). -/
def sortByTS (l : List (String × ℤ)) : List (String × ℤ) :=
  l.foldr insortTS []

/-- Loop state of the clustering pass: the flagged set built so far and
the current cluster.  We keep `current` reversed, so its head is
`current_cluster[-1]`, the last event added; it is nonempty throughout
the loop (it starts as a singleton and every branch keeps it nonempty). -/
structure TCState where
  flagged : Finset String
  current : List (String × ℤ)
deriving DecidableEq

/-- Closing the current cluster: flag every member iff its size is at
least 10. -/
def tcClose (st : TCState) : Finset String :=
  if 10 ≤ st.current.length then st.flagged ∪ (st.current.map Prod.fst).toFinset
  else st.flagged

/-- The gap test `diff_minutes <= threshold_minutes` with
`diff_minutes = (ts - last_ts).total_seconds() / 60`: over whole-second
timestamps and an integer threshold this holds iff
`ts - last_ts ≤ 60 * th` (seconds), which we use so that the test is
exact integer arithmetic (`gapCond_iff` below proves the equivalence
with the rational quotient form). -/
def gapCond (th : ℤ) (lastTs ts : ℤ) : Bool :=
  decide (ts - lastTs ≤ 60 * th)

/-- One iteration of the clustering loop for event `e`: append to the
current cluster iff the gap in minutes since the last added event is
at most `th`, otherwise close the cluster and start a new one with `e`.
(The `[]` branch is unreachable: the state always has a nonempty
current cluster.) -/
def tcStep (th : ℤ) (st : TCState) (e : String × ℤ) : TCState :=
  match st.current with
  | [] => { flagged := st.flagged, current := [e] }
  | last :: _ =>
    if gapCond th last.2 e.2 then
      { flagged := st.flagged, current := e :: st.current }
    else
      { flagged := tcClose st, current := [e] }

/-- `detect_temporal_clustering(threshold_minutes=60)`: the flagged
username set.  The final cluster is closed and evaluated identically
after the loop. -/
def detect_temporal_clustering (accounts : List Account) (th : ℤ) : Finset String :=
  let timestamps := (basicLegit accounts).map (fun a => (a.username, a.starred_at))
  match sortByTS timestamps with
  | [] => ∅
  | t0 :: rest => tcClose (rest.foldl (tcStep th) ⟨∅, [t0]⟩)

/-! ### `run_advanced_on_collected.py` variant

`analyze_temporal_clustering` is the same loop but collects the list of
qualifying clusters (each in chronological order) instead of a flat
set; its suspicious set is the union of the clusters' usernames. -/

/-- Loop state of the cluster-collecting variant. -/
structure TCCState where
  clusters : List (List (String × ℤ))
  current : List (String × ℤ)
deriving DecidableEq

/-- Qualifying clusters produced when a cluster is closed (the closed
cluster is recorded iff its size is at least 10; `current` is reversed,
so the recorded cluster is `current.reverse`). -/
def tccClose (cur : List (String × ℤ)) : List (List (String × ℤ)) :=
  if 10 ≤ cur.length then [cur.reverse] else []

/-- One iteration of the cluster-collecting loop. -/
def tccStep (th : ℤ) (st : TCCState) (e : String × ℤ) : TCCState :=
  match st.current with
  | [] => { clusters := st.clusters, current := [e] }
  | last :: _ =>
    if gapCond th last.2 e.2 then
      { clusters := st.clusters, current := e :: st.current }
    else
      { clusters := st.clusters ++ tccClose st.current, current := [e] }

/-- `analyze_temporal_clustering(threshold_minutes=60)` from
`run_advanced_on_collected.py`: the ordered list of qualifying temporal
clusters over the basic-legit events. -/
def analyze_temporal_clustering (accounts : List Account) (th : ℤ) :
    List (List (String × ℤ)) :=
  match sortByTS ((basicLegit accounts).map (fun a => (a.username, a.starred_at))) with
  | [] => []
  | t0 :: rest =>
    let fin := rest.foldl (tccStep th) ⟨[], [t0]⟩
    fin.clusters ++ tccClose fin.current

/-- `suspicious_accounts` of the temporal analysis: every username of
every qualifying cluster, as a set. -/
def temporalClusterSet (accounts : List Account) (th : ℤ) : Finset String :=
  ((analyze_temporal_clustering accounts th).map (fun c => c.map Prod.fst)).flatten.toFinset

/-! ## Dormant Account Detector

`detect_dormant_accounts` (correlation and timeline scripts) /
`analyze_dormant_accounts` (`run_advanced_on_collected.py`, which
additionally sorts a detail list for printing — presentation only).
The loop skips basic-flagged records, then reads
`acc['account_created']` unconditionally: a non-basic record without
that key raises a `KeyError` and aborts the run, modelled by
`Except.error`. -/

/-- The flag condition on a non-basic record whose `account_created`
is `c`: `account_age_days > 365 and public_repos < 3`, where
`(starred - created).days` floors towards minus infinity. -/
def dormantCond (a : Account) (c : ℤ) : Bool :=
  decide (365 < (a.starred_at - c).fdiv 86400) && decide (a.public_repos < 3)

/-- The dormant loop over the non-basic records, in order: fails at the
first record without `account_created`, otherwise returns the (ordered)
usernames of the records satisfying `dormantCond`. -/
def dormantGo : List Account → Except Unit (List String)
  | [] => .ok []
  | a :: rest =>
    match a.account_created with
    | none => .error ()
    | some c =>
      match dormantGo rest with
      | .error e => .error e
      | .ok s => .ok (if dormantCond a c then a.username :: s else s)

/-- The dormant flag condition on a record as a total predicate: false
when `account_created` is absent (such a record is never flagged — the
run aborts instead, but the successful-run characterization below uses
this form). -/
def dormantCondOpt (a : Account) : Bool :=
  match a.account_created with
  | some c => dormantCond a c
  | none => false

/-- `detect_dormant_accounts`: the flagged username set (or the
modelled `KeyError`). -/
def detect_dormant_accounts (accounts : List Account) : Except Unit (Finset String) :=
  match dormantGo (basicLegit accounts) with
  | .error e => .error e
  | .ok l => .ok l.toFinset

/-! ## Low-Activity Detector -/

/-- `repos == 0 and followers < 5 and following < 10`. -/
def lowActivityCond (a : Account) : Bool :=
  decide (a.public_repos = 0) && decide (a.followers < 5) && decide (a.following < 10)

/-- `detect_low_activity` / `analyze_activity_diversity`: flagged
username set over the non-basic records. -/
def detect_low_activity (accounts : List Account) : Finset String :=
  (((basicLegit accounts).filter lowActivityCond).map Account.username).toFinset

/-! ## Ensemble combination -/

/-- `apply_full_detection` (correlation script) /
`apply_advanced_detection` (timeline script): the union of the four
detectors' outputs; a dormant-detector `KeyError` aborts the run. -/
def apply_full_detection (accounts : List Account) : Except Unit (Finset String) :=
  match detect_dormant_accounts accounts with
  | .error e => .error e
  | .ok dormant =>
    .ok (basicSet accounts ∪ detect_temporal_clustering accounts 60 ∪ dormant ∪
      detect_low_activity accounts)

/-! ## Sorted, deduplicated keys

`sorted(set(keys))` on period keys: an insertion-based sorted dedup
over any linear order (used at `ℤ` for days and `ℤ ×ₗ ℤ` for ISO
weeks, mirroring the string order of the four-digit `YYYY-WNN` keys). -/

/-- Insert into a strictly sorted list, dropping duplicates. -/
def insortUniq {α : Type} [LinearOrder α] (e : α) : List α → List α
  | [] => [e]
  | x :: xs =>
    if e < x then e :: x :: xs
    else if e = x then x :: xs
    else x :: insortUniq e xs

/-- `sorted(set(l))`: strictly sorted list of the distinct elements. -/
def sortedDedup {α : Type} [LinearOrder α] (l : List α) : List α :=
  l.foldr insortUniq []

/-- Boolean equality of week keys through the underlying pair of
integers (`weekKeyEqb_iff` below relates it to propositional
equality). -/
def weekKeyEqb (v w : ℤ ×ₗ ℤ) : Bool :=
  decide ((ofLex v).1 = (ofLex w).1) && decide ((ofLex v).2 = (ofLex w).2)

/-! ## Time bucketing

Weekly buckets from `analyze_weekly_correlation` and daily buckets from
`create_timeline_graph`.  An event counts as fake iff its username is
in the fake set, as real otherwise; a period key exists iff some event
falls in it. -/

/-- `weekly_real[w]`: events of week `w` whose username is not in the
fake set. -/
def weeklyRealCount (accounts : List Account) (fake : Finset String) (w : ℤ ×ₗ ℤ) : ℕ :=
  (accounts.filter
    (fun a => weekKeyEqb (weekKeyOf a.starred_at) w && !decide (a.username ∈ fake))).length

/-- `weekly_fake[w]`: events of week `w` whose username is in the fake
set. -/
def weeklyFakeCount (accounts : List Account) (fake : Finset String) (w : ℤ ×ₗ ℤ) : ℕ :=
  (accounts.filter
    (fun a => weekKeyEqb (weekKeyOf a.starred_at) w && decide (a.username ∈ fake))).length

/-- `all_weeks = sorted(set(weekly_real.keys() + weekly_fake.keys()))`:
every event lands in exactly one of the two dicts, so the union of key
sets is the set of week keys of all events. -/
def all_weeks (accounts : List Account) : List (ℤ ×ₗ ℤ) :=
  sortedDedup (accounts.map (fun a => weekKeyOf a.starred_at))

/-- `real_counts`, aligned with `all_weeks`. -/
def real_counts (accounts : List Account) (fake : Finset String) : List ℕ :=
  (all_weeks accounts).map (weeklyRealCount accounts fake)

/-- `fake_counts`, aligned with `all_weeks`. -/
def fake_counts (accounts : List Account) (fake : Finset String) : List ℕ :=
  (all_weeks accounts).map (weeklyFakeCount accounts fake)

/-- `weeks_2024 = [w for w in all_weeks if w.startswith('2024')]`: for
the four-digit ISO years realizable in the data this is exactly the
weeks with year 2024. -/
def weeks_2024 (accounts : List Account) : List (ℤ ×ₗ ℤ) :=
  (all_weeks accounts).filter (fun w => decide ((ofLex w).1 = 2024))

/-- `real_2024`, aligned with `weeks_2024`. -/
def real_2024 (accounts : List Account) (fake : Finset String) : List ℕ :=
  (weeks_2024 accounts).map (weeklyRealCount accounts fake)

/-- `fake_2024`, aligned with `weeks_2024`. -/
def fake_2024 (accounts : List Account) (fake : Finset String) : List ℕ :=
  (weeks_2024 accounts).map (weeklyFakeCount accounts fake)

/-! ### Daily buckets (`create_timeline_graph`) -/

/-- Events of day `d` not in the fake set (`daily_real[d]`). -/
def dailyRealCount (accounts : List Account) (fake : Finset String) (d : ℤ) : ℕ :=
  (accounts.filter (fun a => decide (dayOf a.starred_at = d ∧ a.username ∉ fake))).length

/-- Events of day `d` in the fake set (`daily_fake[d]`). -/
def dailyFakeCount (accounts : List Account) (fake : Finset String) (d : ℤ) : ℕ :=
  (accounts.filter (fun a => decide (dayOf a.starred_at = d ∧ a.username ∈ fake))).length

/-- `all_dates = sorted(set(...))`. -/
def all_dates (accounts : List Account) : List ℤ :=
  sortedDedup (accounts.map (fun a => dayOf a.starred_at))

/-- The daily timeline series: one `(day, realCount, fakeCount)` bucket
per day containing at least one event, ascending. -/
def create_timeline_buckets (accounts : List Account) (fake : Finset String) :
    List (ℤ × ℕ × ℕ) :=
  (all_dates accounts).map
    (fun d => (d, dailyRealCount accounts fake d, dailyFakeCount accounts fake d))

/-! ## Correlation & anomaly engine -/

/-- `np.mean` over a rational list (0 on the empty list; never applied
to an empty list by the pipeline). -/
def listMean (l : List ℚ) : ℚ := l.sum / l.length

/-- The pair ΣΔxΔy and (ΣΔx²)·(ΣΔy²) of centered products, which
exactly determines `scipy.stats.pearsonr`'s outputs: the coefficient is
`r = num / √densq` and the two-tailed p-value is a fixed function of
`r` and the sample size.  We carry this exact rational determination
instead of the floating-point `(r, p)` pair; no claim concerns the
numeric value, only whether the statistic is computed at all. -/
def pearsonPair (xs ys : List ℚ) : ℚ × ℚ :=
  let mx := listMean xs
  let my := listMean ys
  (((xs.zip ys).map (fun p => (p.1 - mx) * (p.2 - my))).sum,
   ((xs.map (fun x => (x - mx) ^ 2)).sum) * ((ys.map (fun y => (y - my) ^ 2)).sum))

/-- Overall correlation: computed iff `len(real_counts) > 2`, else the
explicit `None` (the `correlation` entry of the returned dict). -/
def correlation (accounts : List Account) (fake : Finset String) : Option (ℚ × ℚ) :=
  if 2 < (real_counts accounts fake).length then
    some (pearsonPair ((real_counts accounts fake).map (fun n => (n : ℚ)))
      ((fake_counts accounts fake).map (fun n => (n : ℚ))))
  else none

/-- 2024 sub-range correlation: computed iff `len(weeks_2024) > 4`,
else the explicit `None` (the `correlation_2024` entry). -/
def correlation_2024 (accounts : List Account) (fake : Finset String) : Option (ℚ × ℚ) :=
  if 4 < (weeks_2024 accounts).length then
    some (pearsonPair ((real_2024 accounts fake).map (fun n => (n : ℚ)))
      ((fake_2024 accounts fake).map (fun n => (n : ℚ))))
  else none

/-! ### Inverse-direction week counting (2024 block) -/

/-- Pair `i` of the 2024 series (`1 ≤ i < len`) is classified inverse:
`(real_change < 0 and fake_change > 0) or (real_change > 0 and
fake_change < 0)`. -/
def inversePair (r f : List ℕ) (i : ℕ) : Bool :=
  let rc : ℤ := (r.getD i 0 : ℤ) - (r.getD (i - 1) 0 : ℤ)
  let fc : ℤ := (f.getD i 0 : ℤ) - (f.getD (i - 1) 0 : ℤ)
  decide ((rc < 0 ∧ 0 < fc) ∨ (0 < rc ∧ fc < 0))

/-- `inverse_weeks` accumulated by the loop `for i in range(1, len(weeks_2024))`. -/
def inverseCount (r f : List ℕ) (n : ℕ) : ℕ :=
  (List.range' 1 (n - 1)).countP (inversePair r f)

/-- The returned `inverse_weeks_2024`: the loop only runs when
`len(weeks_2024) > 4`; otherwise the dict carries 0. -/
def inverse_weeks_2024 (accounts : List Account) (fake : Finset String) : ℕ :=
  if 4 < (weeks_2024 accounts).length then
    inverseCount (real_2024 accounts fake) (fake_2024 accounts fake)
      (weeks_2024 accounts).length
  else 0

/-- The returned `inverse_pct_2024`:
`inverse_weeks / total_weeks * 100 if total_weeks > 0 else 0` with
`total_weeks = len(weeks_2024) - 1`, and 0 when the 2024 block does not
run. -/
def inverse_pct_2024 (accounts : List Account) (fake : Finset String) : ℚ :=
  if 4 < (weeks_2024 accounts).length then
    if 0 < (weeks_2024 accounts).length - 1 then
      (inverseCount (real_2024 accounts fake) (fake_2024 accounts fake)
        (weeks_2024 accounts).length : ℚ) / ((weeks_2024 accounts).length - 1 : ℕ) * 100
    else 0
  else 0

/-! ### Moving-average deviation spikes (2024 block) -/

/-- `np.mean(series[i-4:i])`: trailing moving average of window 4 at
index `i`.  The window mean divides an integer sum by 4, which IEEE
doubles compute exactly, so the rational model is faithful. -/
def movingAvg (l : List ℕ) (i : ℕ) : ℚ :=
  listMean (((l.drop (i - 4)).take 4).map (fun n => (n : ℚ)))

/-- Integer sum of the window `series[i-4:i]`. -/
def windowSum (l : List ℕ) (i : ℕ) : ℤ :=
  (((l.drop (i - 4)).take 4).map (fun n => (n : ℤ))).sum

/-- The spike condition at index `i`: `real_dev < -5 and fake_dev > 10`
with `dev = series[i] - movingAvg`.  Multiplying through by the window
size 4 turns both comparisons into exact integer arithmetic:
`x - s/4 < -5 ↔ 4x - s < -20` and `10 < x - s/4 ↔ 40 < 4x - s`
(`spikeFlag_iff` below proves the equivalence with the
rational-deviation form). -/
def spikeFlag (r f : List ℕ) (i : ℕ) : Bool :=
  decide (4 * (r.getD i 0 : ℤ) - windowSum r i < -20) &&
    decide (40 < 4 * (f.getD i 0 : ℤ) - windowSum f i)

/-- The indices the moving-average pass flags as compensatory spikes
(the script prints these periods; the loop `for i in range(window,
len(weeks_2024))` runs only when `len(weeks_2024) >= 8`). -/
def spikes_2024 (accounts : List Account) (fake : Finset String) : List ℕ :=
  if 8 ≤ (weeks_2024 accounts).length then
    (List.range' 4 ((weeks_2024 accounts).length - 4)).filter
      (spikeFlag (real_2024 accounts fake) (fake_2024 accounts fake))
  else []

/-! ## run_advanced_on_collected report arithmetic -/

/-- `all_suspicious` of `generate_report`: the union of the three
advanced detectors' username sets (`d` is the dormant detector's
result). -/
def advancedUnion (accounts : List Account) (d : Finset String) : Finset String :=
  temporalClusterSet accounts 60 ∪ d ∪ detect_low_activity accounts

/-- `total_fake = basic_fake + advanced_fake`: the count of
basic-flagged records plus the cardinality of the advanced union. -/
def total_fake (accounts : List Account) (d : Finset String) : ℕ :=
  (accounts.filter basicFlag).length + (advancedUnion accounts d).card

/-! ## Concrete snapshots for the claim theorems and witnesses -/

/-- An unremarkable event: recent account, several repos and
followers, so only its timestamp can make any detector flag it. -/
def mkEvent (u : String) (ts : ℤ) : Account :=
  { username := u, starred_at := ts, account_created := some (ts - 86400),
    public_repos := 5, followers := 10, following := 20 }

/-- Twelve events: eleven at 5-minute spacing (offsets 0,5,…,50 min),
then one 150 minutes after the eleventh. -/
def exC4 : List Account :=
  (List.range 11).map (fun i => mkEvent ("a" ++ toString i) (300 * (i : ℤ))) ++
    [mkEvent "a99" 12000]

/-- Eleven events at 30-minute spacing: pairwise gaps 30 ≤ 60, but the
first and last are 300 minutes apart. -/
def exC10 : List Account :=
  (List.range 11).map (fun i => mkEvent ("t" ++ toString i) (1800 * (i : ℤ)))

/-- The cluster `exC10` should produce. -/
def exC10cluster : List (String × ℤ) :=
  (List.range 11).map (fun i => ("t" ++ toString i, 1800 * (i : ℤ)))

/-- Account aged 400 days at its star with 2 public repos. -/
def accD2 : Account :=
  { username := "d2", starred_at := 0, account_created := some (-(400 * 86400)),
    public_repos := 2 }

/-- Same as `accD2` but with 3 public repos. -/
def accD3 : Account :=
  { username := "d3", starred_at := 0, account_created := some (-(400 * 86400)),
    public_repos := 3 }

/-- Two-event snapshot for the dormant-threshold claim. -/
def exC5 : List Account := [accD2, accD3]

/-- A non-basic record without `account_created`. -/
def accNoCreated : Account := { username := "n1", starred_at := 0 }

/-- One-event snapshot whose only record lacks `account_created`. -/
def exC1 : List Account := [accNoCreated]

/-- Snapshot where `account_created` is present but later than
`starred_at`. -/
def accLater : Account :=
  { username := "l1", starred_at := 0, account_created := some 86400 }

/-- A basic-flagged record and a clean one. -/
def exC7 : List Account :=
  [{ username := "b1", starred_at := 0, is_suspicious := true }, mkEvent "g1" 3600]

/-- Same shape, for the report-count claim. -/
def exC9 : List Account :=
  [{ username := "b9", starred_at := 0, status := .deleted }, mkEvent "g9" 3600]

/-- Timestamp of the Monday of ISO week 2024-W(k+1) (day 19723 is
2024-01-01, a Monday). -/
def weekTS (k : ℕ) : ℤ := (19723 + 7 * (k : ℤ)) * 86400

/-- `n` distinct events in ISO week 2024-W(k+1). -/
def weekBatch (tag : String) (k n : ℕ) : List Account :=
  (List.range n).map (fun i => mkEvent (tag ++ toString k ++ "n" ++ toString i) (weekTS k))

/-- Events realizing the weekly count series `counts` starting at
2024-W01. -/
def weekBatches (tag : String) (counts : List ℕ) : List Account :=
  (counts.enum.map (fun p => weekBatch tag p.1 p.2)).flatten

/-- The usernames of a list of events, as a set. -/
def usernamesOf (l : List Account) : Finset String :=
  (l.map Account.username).toFinset

/-- Four events in four distinct 2024 weeks. -/
def exC2 : List Account := weekBatches "r" [1, 1, 1, 1]

/-- Fake part of the 5-week spike configuration. -/
def exC3cF : List Account := weekBatches "f" [2, 2, 2, 2, 15]

/-- Five 2024 weeks: four baseline weeks `real=10, fake=2`, then
`real=3, fake=15`. -/
def exC3c : List Account := weekBatches "r" [10, 10, 10, 10, 3] ++ exC3cF

/-- The fake set classifying the `"f"`-tagged events as fake. -/
def fakeC3c : Finset String := usernamesOf exC3cF

/-- Fake part of the 8-week spike configuration. -/
def exC3aF : List Account := weekBatches "f" [0, 0, 0, 2, 2, 2, 2, 15]

/-- Eight 2024 weeks ending with the four-week baseline
`real=10, fake=2` and the spike week `real=3, fake=15`. -/
def exC3a : List Account := weekBatches "r" [1, 1, 1, 10, 10, 10, 10, 3] ++ exC3aF

/-- The fake set for `exC3a`. -/
def fakeC3a : Finset String := usernamesOf exC3aF

/-- Fake part of the 3-week inverse configuration. -/
def exC6cF : List Account := weekBatches "f" [2, 6, 3]

/-- Three 2024 weeks with `real=[10,7,9]`, `fake=[2,6,3]`. -/
def exC6c : List Account := weekBatches "r" [10, 7, 9] ++ exC6cF

/-- The fake set for `exC6c`. -/
def fakeC6c : Finset String := usernamesOf exC6cF

/-- Fake part of the 5-week inverse configuration. -/
def exC6aF : List Account := weekBatches "f" [2, 6, 3, 4, 3]

/-- Five 2024 weeks with `real=[10,7,9,0,1]`, `fake=[2,6,3,4,3]`:
every consecutive pair moves in strictly opposite directions. -/
def exC6a : List Account := weekBatches "r" [10, 7, 9, 0, 1] ++ exC6aF

/-- The fake set for `exC6a`. -/
def fakeC6a : Finset String := usernamesOf exC6aF

/-- Two events on the same calendar day. -/
def exC8 : List Account := [mkEvent "p1" 1000, mkEvent "p2" 50000]

/-!
# Lemma layer
-/

/-! ## Sorted-dedup lemmas -/

theorem mem_insortUniq {α : Type} [LinearOrder α] (e a : α) (l : List α) :
    a ∈ insortUniq e l ↔ a = e ∨ a ∈ l := by
  induction l with
  | nil => simp [insortUniq]
  | cons x xs ih =>
    by_cases h1 : e < x
    · simp [insortUniq, h1]
    · by_cases h2 : e = x
      · subst h2
        simp only [insortUniq, lt_irrefl, if_false, if_true, List.mem_cons]
        tauto
      · simp only [insortUniq, h1, h2, if_false, List.mem_cons, ih]
        tauto

theorem sorted_insortUniq {α : Type} [LinearOrder α] (e : α) (l : List α)
    (h : l.Sorted (· < ·)) : (insortUniq e l).Sorted (· < ·) := by
  induction l with
  | nil => simp [insortUniq]
  | cons x xs ih =>
    rw [List.sorted_cons] at h
    by_cases h1 : e < x
    · rw [insortUniq, if_pos h1, List.sorted_cons]
      refine ⟨?_, List.sorted_cons.mpr h⟩
      intro b hb
      rcases List.mem_cons.mp hb with rfl | hb
      · exact h1
      · exact h1.trans (h.1 b hb)
    · by_cases h2 : e = x
      · rw [insortUniq, if_neg h1, if_pos h2, List.sorted_cons]
        exact h
      · rw [insortUniq, if_neg h1, if_neg h2, List.sorted_cons]
        refine ⟨?_, ih h.2⟩
        intro b hb
        rcases (mem_insortUniq e b xs).mp hb with rfl | hb
        · exact lt_of_le_of_ne (not_lt.mp h1) (Ne.symm h2)
        · exact h.1 b hb

theorem mem_sortedDedup {α : Type} [LinearOrder α] (a : α) (l : List α) :
    a ∈ sortedDedup l ↔ a ∈ l := by
  induction l with
  | nil => simp [sortedDedup]
  | cons x xs ih =>
    simp only [sortedDedup, List.foldr_cons] at *
    rw [mem_insortUniq, ih, List.mem_cons]

theorem sorted_sortedDedup {α : Type} [LinearOrder α] (l : List α) :
    (sortedDedup l).Sorted (· < ·) := by
  induction l with
  | nil => simp [sortedDedup]
  | cons x xs ih => exact sorted_insortUniq x _ ih

/-! ## Stable timestamp sort lemmas -/

theorem mem_insortTS (e a : String × ℤ) (l : List (String × ℤ)) :
    a ∈ insortTS e l ↔ a = e ∨ a ∈ l := by
  induction l with
  | nil => simp [insortTS]
  | cons x xs ih =>
    by_cases h : e.2 ≤ x.2
    · simp [insortTS, h]
    · simp only [insortTS, h, if_false, List.mem_cons, ih]
      tauto

theorem mem_sortByTS (a : String × ℤ) (l : List (String × ℤ)) :
    a ∈ sortByTS l ↔ a ∈ l := by
  induction l with
  | nil => simp [sortByTS]
  | cons x xs ih =>
    simp only [sortByTS, List.foldr_cons] at *
    rw [mem_insortTS, ih, List.mem_cons]

theorem weekKeyEqb_iff (v w : ℤ ×ₗ ℤ) : weekKeyEqb v w = true ↔ v = w := by
  rw [weekKeyEqb, Bool.and_eq_true, decide_eq_true_eq, decide_eq_true_eq]
  constructor
  · rintro ⟨h1, h2⟩
    exact ofLex.injective (Prod.ext h1 h2)
  · rintro rfl
    exact ⟨rfl, rfl⟩

/-! ## Counting lemmas -/

theorem filter_bool_split {α : Type} (p q : α → Bool) (l : List α) :
    (l.filter (fun a => p a && !q a)).length + (l.filter (fun a => p a && q a)).length
      = (l.filter p).length := by
  induction l with
  | nil => rfl
  | cons x xs ih =>
    simp only [List.filter_cons]
    cases hp : p x <;> cases hq : q x <;> simp [hp, hq] <;> omega

/-! ## Gap and deviation comparisons: integer forms vs. quotient forms -/

theorem gapCond_iff (th lastTs ts : ℤ) :
    gapCond th lastTs ts = true ↔ ((ts - lastTs : ℤ) : ℚ) / 60 ≤ (th : ℚ) := by
  rw [gapCond, decide_eq_true_eq, div_le_iff₀ (by norm_num : (0 : ℚ) < 60)]
  constructor
  · intro h
    calc ((ts - lastTs : ℤ) : ℚ) ≤ ((60 * th : ℤ) : ℚ) := by exact_mod_cast h
    _ = (th : ℚ) * 60 := by push_cast; ring
  · intro h
    have : ((ts - lastTs : ℤ) : ℚ) ≤ ((60 * th : ℤ) : ℚ) := by
      calc ((ts - lastTs : ℤ) : ℚ) ≤ (th : ℚ) * 60 := h
      _ = ((60 * th : ℤ) : ℚ) := by push_cast; ring
    exact_mod_cast this

theorem take_four_drop (l : List ℕ) : ∀ (i : ℕ), i + 4 ≤ l.length →
    (l.drop i).take 4 = [l.getD i 0, l.getD (i + 1) 0, l.getD (i + 2) 0, l.getD (i + 3) 0] := by
  induction l with
  | nil => intro i h; simp at h
  | cons a t ih =>
    intro i h
    cases i with
    | zero =>
      simp only [List.length_cons] at h
      match t, h with
      | b :: c :: d :: t2, _ => simp [List.getD]
    | succ j =>
      simp only [List.length_cons] at h
      have h2 : j + 4 ≤ t.length := by omega
      simp only [List.drop_succ_cons, List.getD_cons_succ]
      exact ih j h2

theorem listMean_four (a b c d : ℚ) : listMean [a, b, c, d] = (a + b + c + d) / 4 := by
  simp only [listMean, List.sum_cons, List.sum_nil, List.length_cons, List.length_nil]
  norm_num
  ring

theorem movingAvg_eq_getD (l : List ℕ) (i : ℕ) (h4 : 4 ≤ i) (hl : i ≤ l.length) :
    movingAvg l i = ((l.getD (i - 4) 0 : ℚ) + (l.getD (i - 3) 0 : ℚ)
      + (l.getD (i - 2) 0 : ℚ) + (l.getD (i - 1) 0 : ℚ)) / 4 := by
  have hb : (i - 4) + 4 ≤ l.length := by omega
  rw [movingAvg, take_four_drop l (i - 4) hb]
  have e1 : i - 4 + 1 = i - 3 := by omega
  have e2 : i - 4 + 2 = i - 2 := by omega
  have e3 : i - 4 + 3 = i - 1 := by omega
  rw [e1, e2, e3]
  simp only [List.map]
  exact listMean_four _ _ _ _

theorem windowSum_eq_getD (l : List ℕ) (i : ℕ) (h4 : 4 ≤ i) (hl : i ≤ l.length) :
    windowSum l i = (l.getD (i - 4) 0 : ℤ) + (l.getD (i - 3) 0 : ℤ)
      + (l.getD (i - 2) 0 : ℤ) + (l.getD (i - 1) 0 : ℤ) := by
  have hb : (i - 4) + 4 ≤ l.length := by omega
  rw [windowSum, take_four_drop l (i - 4) hb]
  have e1 : i - 4 + 1 = i - 3 := by omega
  have e2 : i - 4 + 2 = i - 2 := by omega
  have e3 : i - 4 + 3 = i - 1 := by omega
  rw [e1, e2, e3]
  simp only [List.map, List.sum_cons, List.sum_nil]
  ring

/-- The integer spike test agrees with the rational moving-average
deviation test of the source. -/
theorem spikeFlag_iff (r f : List ℕ) (i : ℕ) (h4 : 4 ≤ i) (hr : i ≤ r.length)
    (hf : i ≤ f.length) :
    spikeFlag r f i = true ↔
      ((r.getD i 0 : ℚ) - movingAvg r i < -5 ∧ 10 < (f.getD i 0 : ℚ) - movingAvg f i) := by
  rw [spikeFlag, Bool.and_eq_true, decide_eq_true_eq, decide_eq_true_eq,
    movingAvg_eq_getD r i h4 hr, movingAvg_eq_getD f i h4 hf,
    windowSum_eq_getD r i h4 hr, windowSum_eq_getD f i h4 hf]
  constructor
  · rintro ⟨h1, h2⟩
    constructor
    · have h1q : (4 * (r.getD i 0 : ℤ) - ((r.getD (i - 4) 0 : ℤ) + (r.getD (i - 3) 0 : ℤ)
          + (r.getD (i - 2) 0 : ℤ) + (r.getD (i - 1) 0 : ℤ)) : ℚ) < -20 := by exact_mod_cast h1
      push_cast at h1q ⊢
      linarith
    · have h2q : (40 : ℚ) < (4 * (f.getD i 0 : ℤ) - ((f.getD (i - 4) 0 : ℤ)
          + (f.getD (i - 3) 0 : ℤ) + (f.getD (i - 2) 0 : ℤ) + (f.getD (i - 1) 0 : ℤ)) : ℚ) := by
        exact_mod_cast h2
      push_cast at h2q ⊢
      linarith
  · rintro ⟨h1, h2⟩
    constructor
    · have h1q : (4 * (r.getD i 0 : ℤ) - ((r.getD (i - 4) 0 : ℤ) + (r.getD (i - 3) 0 : ℤ)
          + (r.getD (i - 2) 0 : ℤ) + (r.getD (i - 1) 0 : ℤ)) : ℚ) < -20 := by
        push_cast
        linarith
      exact_mod_cast h1q
    · have h2q : (40 : ℚ) < (4 * (f.getD i 0 : ℤ) - ((f.getD (i - 4) 0 : ℤ)
          + (f.getD (i - 3) 0 : ℤ) + (f.getD (i - 2) 0 : ℤ) + (f.getD (i - 1) 0 : ℤ)) : ℚ) := by
        push_cast
        linarith
      exact_mod_cast h2q

/-! ## Dormant-loop characterization -/

theorem dormantGo_ok_iff (l : List Account) :
    (∃ s, dormantGo l = .ok s) ↔ ∀ a ∈ l, a.account_created.isSome = true := by
  induction l with
  | nil => simp [dormantGo]
  | cons a rest ih =>
    cases hc : a.account_created with
    | none =>
      simp only [dormantGo, hc]
      constructor
      · rintro ⟨s, hs⟩
        exact absurd hs (by simp)
      · intro h
        have := h a (List.mem_cons_self a rest)
        rw [hc] at this
        simp at this
    | some c =>
      simp only [dormantGo, hc]
      constructor
      · rintro ⟨s, hs⟩
        intro b hb
        rcases List.mem_cons.mp hb with rfl | hb
        · simp [hc]
        · cases hrec : dormantGo rest with
          | error e => rw [hrec] at hs; exact absurd hs (by simp)
          | ok s2 => exact (ih.mp ⟨s2, hrec⟩) b hb
      · intro h
        have hrest : ∃ s, dormantGo rest = .ok s :=
          ih.mpr (fun b hb => h b (List.mem_cons_of_mem a hb))
        rcases hrest with ⟨s2, hs2⟩
        rw [hs2]
        exact ⟨_, rfl⟩

theorem dormantGo_ok_eq (l : List Account) (s : List String) (h : dormantGo l = .ok s) :
    s = (l.filter dormantCondOpt).map Account.username := by
  induction l generalizing s with
  | nil =>
    simp only [dormantGo] at h
    cases h
    rfl
  | cons a rest ih =>
    cases hc : a.account_created with
    | none => rw [dormantGo, hc] at h; exact absurd h (by simp)
    | some c =>
      rw [dormantGo, hc] at h
      cases hrec : dormantGo rest with
      | error e => rw [hrec] at h; exact absurd h (by simp)
      | ok s2 =>
        rw [hrec] at h
        have h3 : (if dormantCond a c = true then a.username :: s2 else s2) = s :=
          Except.ok.inj h
        have hs2 := ih s2 hrec
        have hcond : dormantCondOpt a = dormantCond a c := by rw [dormantCondOpt, hc]
        by_cases hd : dormantCond a c = true
        · rw [if_pos hd] at h3
          rw [← h3, List.filter_cons, if_pos (by rw [hcond]; exact hd), List.map_cons, hs2]
        · rw [if_neg hd] at h3
          rw [← h3, List.filter_cons, if_neg (by rw [hcond]; exact hd), hs2]

theorem detect_dormant_ok_iff (accounts : List Account) :
    (∃ s, detect_dormant_accounts accounts = .ok s) ↔
      ∀ a ∈ accounts, basicFlag a = true ∨ a.account_created.isSome = true := by
  rw [detect_dormant_accounts]
  constructor
  · rintro ⟨s, hs⟩
    intro a ha
    by_cases hb : basicFlag a = true
    · exact Or.inl hb
    · refine Or.inr ?_
      cases hgo : dormantGo (basicLegit accounts) with
      | error e => rw [hgo] at hs; exact absurd hs (by simp)
      | ok l =>
        have hmem : a ∈ basicLegit accounts := by
          rw [basicLegit, List.mem_filter]
          exact ⟨ha, by simp [hb]⟩
        exact (dormantGo_ok_iff (basicLegit accounts)).mp ⟨l, hgo⟩ a hmem
  · intro h
    have : ∀ a ∈ basicLegit accounts, a.account_created.isSome = true := by
      intro a ha
      rw [basicLegit, List.mem_filter] at ha
      rcases h a ha.1 with hb | hc
      · rw [hb] at ha; simp at ha
      · exact hc
    rcases (dormantGo_ok_iff (basicLegit accounts)).mpr this with ⟨s, hs⟩
    rw [hs]
    exact ⟨_, rfl⟩

theorem detect_dormant_ok_eq (accounts : List Account) (s : Finset String)
    (h : detect_dormant_accounts accounts = .ok s) :
    s = (((basicLegit accounts).filter dormantCondOpt).map Account.username).toFinset := by
  rw [detect_dormant_accounts] at h
  cases hgo : dormantGo (basicLegit accounts) with
  | error e => rw [hgo] at h; exact absurd h (by simp)
  | ok l =>
    rw [hgo] at h
    cases h
    rw [dormantGo_ok_eq _ l hgo]

/-! ## Temporal clustering: membership invariants -/

theorem mem_tcClose (st : TCState) (u : String) :
    u ∈ tcClose st ↔
      u ∈ st.flagged ∨ (10 ≤ st.current.length ∧ u ∈ st.current.map Prod.fst) := by
  rw [tcClose]
  by_cases h : 10 ≤ st.current.length
  · rw [if_pos h]
    simp [h]
  · rw [if_neg h]
    simp [h]

theorem tc_fold_names (th : ℤ) (l : List (String × ℤ)) (st : TCState)
    (names : String → Prop)
    (hflag : ∀ u ∈ st.flagged, names u)
    (hcur : ∀ p ∈ st.current, names p.1)
    (hl : ∀ p ∈ l, names p.1) :
    (∀ u ∈ (l.foldl (tcStep th) st).flagged, names u) ∧
      (∀ p ∈ (l.foldl (tcStep th) st).current, names p.1) := by
  induction l generalizing st with
  | nil => exact ⟨hflag, hcur⟩
  | cons e rest ih =>
    have he : names e.1 := hl e (List.mem_cons_self _ _)
    have hrest : ∀ p ∈ rest, names p.1 := fun p hp => hl p (List.mem_cons_of_mem _ hp)
    rw [List.foldl_cons]
    refine ih (tcStep th st e) ?_ ?_ hrest
    · intro u hu
      cases hcc : st.current with
      | nil =>
        simp only [tcStep, hcc] at hu
        exact hflag u hu
      | cons last tl =>
        simp only [tcStep, hcc] at hu
        by_cases hg : gapCond th last.2 e.2 = true
        · rw [if_pos hg] at hu
          exact hflag u hu
        · rw [if_neg hg] at hu
          rcases (mem_tcClose st u).mp hu with h | ⟨_, hm⟩
          · exact hflag u h
          · rcases List.mem_map.mp hm with ⟨p, hp, rfl⟩
            exact hcur p hp
    · intro p hp
      cases hcc : st.current with
      | nil =>
        simp only [tcStep, hcc] at hp
        rcases List.mem_singleton.mp hp with rfl
        exact he
      | cons last tl =>
        simp only [tcStep, hcc] at hp
        by_cases hg : gapCond th last.2 e.2 = true
        · rw [if_pos hg] at hp
          rcases List.mem_cons.mp hp with rfl | hp2
          · exact he
          · exact hcur p (by rw [hcc]; exact hp2)
        · rw [if_neg hg] at hp
          rcases List.mem_singleton.mp hp with rfl
          exact he

theorem detect_temporal_subset (accounts : List Account) (th : ℤ) :
    ∀ u ∈ detect_temporal_clustering accounts th,
      ∃ a ∈ basicLegit accounts, a.username = u := by
  intro u hu
  simp only [detect_temporal_clustering] at hu
  cases hs : sortByTS ((basicLegit accounts).map fun a => (a.username, a.starred_at)) with
  | nil =>
    rw [hs] at hu
    simp at hu
  | cons t0 rest =>
    rw [hs] at hu
    have hall : ∀ p ∈ t0 :: rest, ∃ a ∈ basicLegit accounts, a.username = p.1 := by
      intro p hp
      have hp2 : p ∈ sortByTS ((basicLegit accounts).map fun a => (a.username, a.starred_at)) := by
        rw [hs]
        exact hp
      rw [mem_sortByTS] at hp2
      rcases List.mem_map.mp hp2 with ⟨a, ha, rfl⟩
      exact ⟨a, ha, rfl⟩
    have hinv := tc_fold_names th rest ⟨∅, [t0]⟩
      (fun v => ∃ a ∈ basicLegit accounts, a.username = v)
      (by intro v hv; simp at hv)
      (by
        intro p hp
        rw [List.mem_singleton.mp hp]
        exact hall t0 (List.mem_cons_self _ _))
      (fun p hp => hall p (List.mem_cons_of_mem _ hp))
    rcases (mem_tcClose _ u).mp hu with h | ⟨_, hm⟩
    · exact hinv.1 u h
    · rcases List.mem_map.mp hm with ⟨p, hp, rfl⟩
      exact hinv.2 p hp

theorem tcc_fold_names (th : ℤ) (l : List (String × ℤ)) (st : TCCState)
    (names : String → Prop)
    (hclu : ∀ c ∈ st.clusters, ∀ p ∈ c, names p.1)
    (hcur : ∀ p ∈ st.current, names p.1)
    (hl : ∀ p ∈ l, names p.1) :
    (∀ c ∈ (l.foldl (tccStep th) st).clusters, ∀ p ∈ c, names p.1) ∧
      (∀ p ∈ (l.foldl (tccStep th) st).current, names p.1) := by
  induction l generalizing st with
  | nil => exact ⟨hclu, hcur⟩
  | cons e rest ih =>
    have he : names e.1 := hl e (List.mem_cons_self _ _)
    have hrest : ∀ p ∈ rest, names p.1 := fun p hp => hl p (List.mem_cons_of_mem _ hp)
    rw [List.foldl_cons]
    refine ih (tccStep th st e) ?_ ?_ hrest
    · intro c hc
      cases hcc : st.current with
      | nil =>
        simp only [tccStep, hcc] at hc
        exact hclu c hc
      | cons last tl =>
        simp only [tccStep, hcc] at hc
        by_cases hg : gapCond th last.2 e.2 = true
        · rw [if_pos hg] at hc
          exact hclu c hc
        · rw [if_neg hg] at hc
          rcases List.mem_append.mp hc with h | h
          · exact hclu c h
          · rw [tccClose] at h
            by_cases hlen : 10 ≤ (last :: tl).length
            · rw [if_pos hlen] at h
              rcases List.mem_singleton.mp h with rfl
              intro p hp
              rw [List.mem_reverse] at hp
              exact hcur p (by rw [hcc]; exact hp)
            · rw [if_neg hlen] at h
              simp at h
    · intro p hp
      cases hcc : st.current with
      | nil =>
        simp only [tccStep, hcc] at hp
        rcases List.mem_singleton.mp hp with rfl
        exact he
      | cons last tl =>
        simp only [tccStep, hcc] at hp
        by_cases hg : gapCond th last.2 e.2 = true
        · rw [if_pos hg] at hp
          rcases List.mem_cons.mp hp with rfl | hp2
          · exact he
          · exact hcur p (by rw [hcc]; exact hp2)
        · rw [if_neg hg] at hp
          rcases List.mem_singleton.mp hp with rfl
          exact he

theorem analyze_temporal_subset (accounts : List Account) (th : ℤ) :
    ∀ c ∈ analyze_temporal_clustering accounts th, ∀ p ∈ c,
      ∃ a ∈ basicLegit accounts, a.username = p.1 := by
  intro c hc
  simp only [analyze_temporal_clustering] at hc
  cases hs : sortByTS ((basicLegit accounts).map fun a => (a.username, a.starred_at)) with
  | nil =>
    rw [hs] at hc
    simp at hc
  | cons t0 rest =>
    rw [hs] at hc
    have hall : ∀ p ∈ t0 :: rest, ∃ a ∈ basicLegit accounts, a.username = p.1 := by
      intro p hp
      have hp2 : p ∈ sortByTS ((basicLegit accounts).map fun a => (a.username, a.starred_at)) := by
        rw [hs]
        exact hp
      rw [mem_sortByTS] at hp2
      rcases List.mem_map.mp hp2 with ⟨a, ha, rfl⟩
      exact ⟨a, ha, rfl⟩
    have hinv := tcc_fold_names th rest ⟨[], [t0]⟩
      (fun v => ∃ a ∈ basicLegit accounts, a.username = v)
      (by intro c2 hc2; simp at hc2)
      (by
        intro p hp
        rw [List.mem_singleton.mp hp]
        exact hall t0 (List.mem_cons_self _ _))
      (fun p hp => hall p (List.mem_cons_of_mem _ hp))
    rcases List.mem_append.mp hc with h | h
    · exact hinv.1 c h
    · rw [tccClose] at h
      by_cases hlen : 10 ≤ (rest.foldl (tccStep th) ⟨[], [t0]⟩).current.length
      · rw [if_pos hlen] at h
        rcases List.mem_singleton.mp h with rfl
        intro p hp
        rw [List.mem_reverse] at hp
        exact hinv.2 p hp
      · rw [if_neg hlen] at h
        simp at h

theorem temporalClusterSet_subset (accounts : List Account) (th : ℤ) :
    ∀ u ∈ temporalClusterSet accounts th, ∃ a ∈ basicLegit accounts, a.username = u := by
  intro u hu
  rw [temporalClusterSet, List.mem_toFinset] at hu
  rcases List.mem_flatten.mp hu with ⟨names, hn, hu2⟩
  rcases List.mem_map.mp hn with ⟨c, hc, rfl⟩
  rcases List.mem_map.mp hu2 with ⟨p, hp, rfl⟩
  exact analyze_temporal_subset accounts th c hc p hp

/-! ## Candidate pools: each advanced detector uses exactly the
basic-excluded records -/

theorem basicLegit_idem (accounts : List Account) :
    basicLegit (basicLegit accounts) = basicLegit accounts := by
  rw [basicLegit, basicLegit, List.filter_filter]
  congr 1
  funext a
  cases basicFlag a <;> rfl

theorem detect_temporal_pool (accounts : List Account) (th : ℤ) :
    detect_temporal_clustering accounts th
      = detect_temporal_clustering (basicLegit accounts) th := by
  simp only [detect_temporal_clustering, basicLegit_idem]

theorem detect_dormant_pool (accounts : List Account) :
    detect_dormant_accounts accounts = detect_dormant_accounts (basicLegit accounts) := by
  simp only [detect_dormant_accounts, basicLegit_idem]

theorem detect_low_pool (accounts : List Account) :
    detect_low_activity accounts = detect_low_activity (basicLegit accounts) := by
  simp only [detect_low_activity, basicLegit_idem]

theorem analyze_temporal_pool (accounts : List Account) (th : ℤ) :
    analyze_temporal_clustering accounts th
      = analyze_temporal_clustering (basicLegit accounts) th := by
  simp only [analyze_temporal_clustering, basicLegit_idem]

theorem detect_dormant_subset (accounts : List Account) (s : Finset String)
    (h : detect_dormant_accounts accounts = .ok s) :
    ∀ u ∈ s, ∃ a ∈ basicLegit accounts, a.username = u := by
  intro u hu
  rw [detect_dormant_ok_eq accounts s h, List.mem_toFinset] at hu
  rcases List.mem_map.mp hu with ⟨a, ha, rfl⟩
  exact ⟨a, (List.mem_filter.mp ha).1, rfl⟩

theorem detect_low_subset (accounts : List Account) :
    ∀ u ∈ detect_low_activity accounts, ∃ a ∈ basicLegit accounts, a.username = u := by
  intro u hu
  rw [detect_low_activity, List.mem_toFinset] at hu
  rcases List.mem_map.mp hu with ⟨a, ha, rfl⟩
  exact ⟨a, (List.mem_filter.mp ha).1, rfl⟩

/-!
# Claim theorems
-/

/-- Claim C10: there is a snapshot on which two usernames flagged as
members of the same temporal cluster are more than the 60-minute gap
threshold apart (`exC10`: eleven events at 30-minute spacing form one
qualifying cluster whose first and last members are 300 minutes apart,
and all its members are flagged). -/
theorem C10_theorem :
    analyze_temporal_clustering exC10 60 = [exC10cluster] ∧
    ("t0", (0 : ℤ)) ∈ exC10cluster ∧
    ("t10", (18000 : ℤ)) ∈ exC10cluster ∧
    "t0" ∈ temporalClusterSet exC10 60 ∧
    "t10" ∈ temporalClusterSet exC10 60 ∧
    (60 : ℚ) < ((18000 - 0 : ℤ) : ℚ) / 60 := by
  refine ⟨by decide, by decide, by decide, by decide, by decide, ?_⟩
  norm_num

/-- Claim C4: the clustering loop appends the next event to the
current cluster iff its gap in minutes since the last event added is
at most the threshold, otherwise it closes the cluster — flagging every
member iff its size is at least 10 — and starts a new cluster with that
event; on eleven events at offsets 0,5,…,50 minutes followed by one at
offset 200, exactly the first eleven are flagged. -/
theorem C4_theorem :
    (∀ (th : ℤ) (st : TCState) (e last : String × ℤ) (tl : List (String × ℤ)),
      st.current = last :: tl →
      (((tcStep th st e).current = e :: st.current ↔
          ((e.2 - last.2 : ℤ) : ℚ) / 60 ≤ (th : ℚ)) ∧
        (¬ ((e.2 - last.2 : ℤ) : ℚ) / 60 ≤ (th : ℚ) →
          (tcStep th st e).current = [e] ∧
          ∀ u, u ∈ (tcStep th st e).flagged ↔
            u ∈ st.flagged ∨ (10 ≤ st.current.length ∧ u ∈ st.current.map Prod.fst)))) ∧
    detect_temporal_clustering exC4 60
      = (((List.range 11).map (fun i => "a" ++ toString i)).toFinset : Finset String) ∧
    "a99" ∉ detect_temporal_clustering exC4 60 := by
  refine ⟨?_, by decide, by decide⟩
  intro th st e last tl hcc
  have hiff := gapCond_iff th last.2 e.2
  constructor
  · by_cases hg : gapCond th last.2 e.2 = true
    · simp only [tcStep, hcc, if_pos hg]
      rw [← hiff]
      simp [hg, hcc]
    · simp only [tcStep, hcc, if_neg hg]
      rw [← hiff]
      simp [hg, hcc]
  · intro hgap
    have hg : ¬ gapCond th last.2 e.2 = true := fun hh => hgap (hiff.mp hh)
    simp only [tcStep, hcc, if_neg hg]
    refine ⟨trivial, ?_⟩
    intro u
    rw [← hcc]
    exact mem_tcClose st u

/-- Claim C4 witness: a concrete step at the threshold boundary (gap of
exactly 60 minutes) appends to the current cluster. -/
theorem C4_witness :
    (tcStep 60 ⟨∅, [("x", 0)]⟩ ("y", 3600)).current
      = ("y", (3600 : ℤ)) :: [("x", (0 : ℤ))] := by
  have h := (C4_theorem.1 60 ⟨∅, [("x", 0)]⟩ ("y", 3600) ("x", 0) [] rfl).1
  exact h.mpr (by norm_num)

/-- Claim C5: a non-basic event with `account_created` present is
flagged by the dormant detector iff the floor of its age in days
exceeds 365 and `public_repos` is less than 3. -/
theorem C5_theorem (accounts : List Account) (a : Account) (c : ℤ) (s : Finset String)
    (hmem : a ∈ accounts) (hbasic : basicFlag a = false)
    (hc : a.account_created = some c)
    (hnodup : (accounts.map Account.username).Nodup)
    (hok : detect_dormant_accounts accounts = .ok s) :
    a.username ∈ s ↔
      (365 < (a.starred_at - c).fdiv 86400 ∧ a.public_repos < 3) := by
  rw [detect_dormant_ok_eq accounts s hok, List.mem_toFinset]
  constructor
  · intro h
    rcases List.mem_map.mp h with ⟨b, hb, hbu⟩
    have hbleg := (List.mem_filter.mp hb).1
    have hbacc : b ∈ accounts := (List.mem_filter.mp hbleg).1
    have hba : b = a := List.inj_on_of_nodup_map hnodup hbacc hmem hbu
    subst hba
    have hcond := (List.mem_filter.mp hb).2
    simp only [dormantCondOpt, hc, dormantCond, Bool.and_eq_true, decide_eq_true_eq] at hcond
    exact hcond
  · intro h
    apply List.mem_map.mpr
    refine ⟨a, ?_, rfl⟩
    rw [List.mem_filter]
    constructor
    · rw [basicLegit, List.mem_filter]
      exact ⟨hmem, by simp [hbasic]⟩
    · simp only [dormantCondOpt, hc, dormantCond]
      simp [h.1, h.2]

/-- Claim C5 witness: the account aged 400 days with 2 repos is
flagged; the one with 3 repos is not. -/
theorem C5_witness :
    ("d2" ∈ ({"d2"} : Finset String) ↔
      (365 < ((0 : ℤ) - -(400 * 86400)).fdiv 86400 ∧ (2 : ℕ) < 3)) ∧
    detect_dormant_accounts exC5 = .ok {"d2"} ∧
    "d3" ∉ ({"d2"} : Finset String) := by
  refine ⟨?_, by decide, by decide⟩
  exact C5_theorem exC5 accD2 (-(400 * 86400)) {"d2"} (by decide) (by decide) rfl
    (by decide) (by decide)

/-- Claim C1 counterexample: a snapshot whose only record is non-basic
and lacks `account_created` makes the dormant detector raise (the
modelled `KeyError`) instead of skipping the record, so the run fails.
-/
theorem C1_counterexample :
    basicFlag accNoCreated = false ∧
    accNoCreated.account_created = none ∧
    detect_dormant_accounts exC1 = .error () :=
  ⟨rfl, rfl, by decide⟩

/-- Claim C1 (amended): the dormant detector succeeds iff every
non-basic record has `account_created` present — a non-basic record
without it aborts the run; on success the flagged set draws only on
non-basic records, and a record whose `account_created` is later than
`starred_at` has negative age and is never flagged. -/
theorem C1_theorem (accounts : List Account) :
    ((∃ s, detect_dormant_accounts accounts = .ok s) ↔
      ∀ a ∈ accounts, basicFlag a = true ∨ a.account_created.isSome = true) ∧
    (∀ s, detect_dormant_accounts accounts = .ok s →
      s = (((basicLegit accounts).filter dormantCondOpt).map Account.username).toFinset) ∧
    (∀ (a : Account) (c : ℤ), a.account_created = some c → a.starred_at < c →
      dormantCondOpt a = false) := by
  refine ⟨detect_dormant_ok_iff accounts, fun s h => detect_dormant_ok_eq accounts s h, ?_⟩
  intro a c hc hlt
  simp only [dormantCondOpt, hc, dormantCond]
  have hneg : a.starred_at - c < 0 := by omega
  have hfd : (a.starred_at - c).fdiv 86400 < 0 := Int.fdiv_neg' hneg (by norm_num)
  have h365 : ¬ (365 < (a.starred_at - c).fdiv 86400) := by omega
  simp [h365]

/-- Claim C1 witness: the detector's flagged set on a concrete
successful run, and the skip of a record created after its star. -/
theorem C1_witness :
    dormantCondOpt accLater = false ∧
    ({"d2"} : Finset String)
      = (((basicLegit exC5).filter dormantCondOpt).map Account.username).toFinset := by
  constructor
  · exact (C1_theorem exC5).2.2 accLater 86400 rfl (by decide)
  · exact (C1_theorem exC5).2.1 {"d2"} (by decide)

/-- Claim C2 counterexample: a snapshot whose 2024 slice has four
weeks (> 2) still gets no 2024 coefficient — the sub-range rule is
`length > 4`, not the overall rule `length > 2`. -/
theorem C2_counterexample :
    2 < (weeks_2024 exC2).length ∧
    (correlation exC2 ∅).isSome = true ∧
    correlation_2024 exC2 ∅ = none :=
  ⟨by decide, by decide, by decide⟩

/-- Claim C2 (amended): the overall correlation is computed iff the
bucketed sequence is longer than 2 (otherwise the explicit `None`), but
the 2024 sub-range has its own minimum length: its coefficient exists
iff the slice is longer than 4. -/
theorem C2_theorem (accounts : List Account) (fake : Finset String) :
    ((correlation accounts fake).isSome = true ↔ 2 < (all_weeks accounts).length) ∧
    (correlation accounts fake = none ↔ (all_weeks accounts).length ≤ 2) ∧
    ((correlation_2024 accounts fake).isSome = true ↔ 4 < (weeks_2024 accounts).length) ∧
    (correlation_2024 accounts fake = none ↔ (weeks_2024 accounts).length ≤ 4) := by
  have hlen : (real_counts accounts fake).length = (all_weeks accounts).length :=
    List.length_map _ _
  refine ⟨?_, ?_, ?_, ?_⟩
  · rw [correlation]
    by_cases h : 2 < (real_counts accounts fake).length
    · rw [if_pos h]
      simp [hlen ▸ h]
    · rw [if_neg h]
      rw [hlen] at h
      simp [h]
  · rw [correlation]
    by_cases h : 2 < (real_counts accounts fake).length
    · rw [if_pos h]
      rw [hlen] at h
      simp
      omega
    · rw [if_neg h]
      rw [hlen] at h
      simp
      omega
  · rw [correlation_2024]
    by_cases h : 4 < (weeks_2024 accounts).length
    · rw [if_pos h]
      simp [h]
    · rw [if_neg h]
      simp [h]
  · rw [correlation_2024]
    by_cases h : 4 < (weeks_2024 accounts).length
    · rw [if_pos h]
      simp
      omega
    · rw [if_neg h]
      simp
      omega

/-- Claim C3 counterexample: on exactly the claimed configuration —
four baseline periods `real=10, fake=2` then `real=3, fake=15` — both
deviation conditions hold at the fifth period, yet nothing is flagged:
the moving-average pass only runs when the 2024 slice has at least
8 periods. -/
theorem C3_counterexample :
    real_2024 exC3c fakeC3c = [10, 10, 10, 10, 3] ∧
    fake_2024 exC3c fakeC3c = [2, 2, 2, 2, 15] ∧
    (weeks_2024 exC3c).length = 5 ∧
    ((real_2024 exC3c fakeC3c).getD 4 0 : ℚ) - movingAvg (real_2024 exC3c fakeC3c) 4 < -5 ∧
    10 < ((fake_2024 exC3c fakeC3c).getD 4 0 : ℚ) - movingAvg (fake_2024 exC3c fakeC3c) 4 ∧
    spikes_2024 exC3c fakeC3c = [] := by
  have hr : real_2024 exC3c fakeC3c = [10, 10, 10, 10, 3] := by decide
  have hf : fake_2024 exC3c fakeC3c = [2, 2, 2, 2, 15] := by decide
  refine ⟨hr, hf, by decide, ?_, ?_, by decide⟩
  · rw [hr]
    norm_num [movingAvg, listMean]
  · rw [hf]
    norm_num [movingAvg, listMean]

/-- Claim C3 (amended): when the 2024 slice has at least 8 periods,
index `i ≥ 4` is flagged iff the real deviation from the trailing
4-period moving average is below −5 and the fake deviation is above
+10; with fewer than 8 periods the pass does not run and nothing is
flagged. -/
theorem C3_theorem (accounts : List Account) (fake : Finset String) :
    ((weeks_2024 accounts).length < 8 → spikes_2024 accounts fake = []) ∧
    (∀ i, 8 ≤ (weeks_2024 accounts).length → 4 ≤ i → i < (weeks_2024 accounts).length →
      (i ∈ spikes_2024 accounts fake ↔
        (((real_2024 accounts fake).getD i 0 : ℚ)
            - movingAvg (real_2024 accounts fake) i < -5 ∧
          10 < ((fake_2024 accounts fake).getD i 0 : ℚ)
            - movingAvg (fake_2024 accounts fake) i))) := by
  constructor
  · intro h
    rw [spikes_2024, if_neg (by omega)]
  · intro i h8 h4 hlt
    have hr : (real_2024 accounts fake).length = (weeks_2024 accounts).length :=
      List.length_map _ _
    have hf : (fake_2024 accounts fake).length = (weeks_2024 accounts).length :=
      List.length_map _ _
    rw [spikes_2024, if_pos h8, List.mem_filter,
      spikeFlag_iff _ _ i h4 (by omega) (by omega)]
    have hmem : i ∈ List.range' 4 ((weeks_2024 accounts).length - 4) := by
      rw [List.mem_range'_1]
      omega
    simp [hmem]

/-- Claim C3 witness: embedding the claimed baseline-and-spike pattern
at the end of an 8-week slice flags exactly that final period. -/
theorem C3_witness :
    spikes_2024 exC2 ∅ = [] ∧ 7 ∈ spikes_2024 exC3a fakeC3a := by
  constructor
  · exact (C3_theorem exC2 ∅).1 (by decide)
  · refine ((C3_theorem exC3a fakeC3a).2 7 (by decide) (by decide) (by decide)).mpr ?_
    have hr : real_2024 exC3a fakeC3a = [1, 1, 1, 10, 10, 10, 10, 3] := by decide
    have hf : fake_2024 exC3a fakeC3a = [0, 0, 0, 2, 2, 2, 2, 15] := by decide
    rw [hr, hf]
    constructor
    · norm_num [movingAvg, listMean]
    · norm_num [movingAvg, listMean]

/-- Claim C6 counterexample: on exactly the claimed series
`real=[10,7,9]`, `fake=[2,6,3]` the reported inverse count and
percentage are 0, not 2 and 100%: the inverse-week loop only runs when
the 2024 slice is longer than 4. -/
theorem C6_counterexample :
    real_2024 exC6c fakeC6c = [10, 7, 9] ∧
    fake_2024 exC6c fakeC6c = [2, 6, 3] ∧
    inverse_weeks_2024 exC6c fakeC6c = 0 ∧
    inverse_pct_2024 exC6c fakeC6c = 0 := by
  refine ⟨by decide, by decide, by decide, ?_⟩
  rw [inverse_pct_2024, if_neg (by decide)]

/-- Claim C6 (amended): a consecutive pair is classified inverse iff
the two deltas have strictly opposite signs (equivalently, negative
product — a zero delta is never inverse); when the 2024 slice is longer
than 4 the reported count is the number of inverse pairs and the
percentage is `count/(length−1)·100`, and otherwise both are reported
as 0. -/
theorem C6_theorem (accounts : List Account) (fake : Finset String) :
    (∀ i, inversePair (real_2024 accounts fake) (fake_2024 accounts fake) i = true ↔
      (((real_2024 accounts fake).getD i 0 : ℤ) - (real_2024 accounts fake).getD (i - 1) 0)
        * (((fake_2024 accounts fake).getD i 0 : ℤ)
            - (fake_2024 accounts fake).getD (i - 1) 0) < 0) ∧
    (4 < (weeks_2024 accounts).length →
      inverse_weeks_2024 accounts fake
          = (List.range' 1 ((weeks_2024 accounts).length - 1)).countP
              (inversePair (real_2024 accounts fake) (fake_2024 accounts fake)) ∧
        inverse_pct_2024 accounts fake
          = (inverse_weeks_2024 accounts fake : ℚ)
              / (((weeks_2024 accounts).length - 1 : ℕ) : ℚ) * 100) ∧
    ((weeks_2024 accounts).length ≤ 4 →
      inverse_weeks_2024 accounts fake = 0 ∧ inverse_pct_2024 accounts fake = 0) := by
  refine ⟨?_, ?_, ?_⟩
  · intro i
    simp only [inversePair, decide_eq_true_eq]
    rw [mul_neg_iff]
    tauto
  · intro h
    refine ⟨?_, ?_⟩
    · rw [inverse_weeks_2024, if_pos h, inverseCount]
    · rw [inverse_pct_2024, if_pos h, if_pos (by omega),
        inverse_weeks_2024, if_pos h, inverseCount]
  · intro h
    refine ⟨?_, ?_⟩
    · rw [inverse_weeks_2024, if_neg (by omega)]
    · rw [inverse_pct_2024, if_neg (by omega)]

/-- Claim C6 witness: a 5-week slice whose every pair is inverse
reports 4 inverse weeks and 100%. -/
theorem C6_witness :
    inverse_weeks_2024 exC6a fakeC6a = 4 ∧ inverse_pct_2024 exC6a fakeC6a = 100 := by
  have h := (C6_theorem exC6a fakeC6a).2.1 (by decide)
  refine ⟨by decide, ?_⟩
  rw [h.2]
  have h4 : inverse_weeks_2024 exC6a fakeC6a = 4 := by decide
  have hlen : (weeks_2024 exC6a).length = 5 := by decide
  rw [h4, hlen]
  norm_num

/-- Claim C7: on every snapshot where the run succeeds, the combined
fake set is the union of the four detectors' outputs, unchanged under
reordering of the union, a superset of the basic detector's output; and
each advanced detector's output is what it computes on the
basic-excluded pool alone, so no sibling's exclusions narrow its
input. -/
theorem C7_theorem (accounts : List Account) (s : Finset String)
    (h : apply_full_detection accounts = .ok s) :
    ∃ d, detect_dormant_accounts accounts = .ok d ∧
      s = basicSet accounts ∪ detect_temporal_clustering accounts 60 ∪ d
            ∪ detect_low_activity accounts ∧
      s = detect_low_activity accounts ∪ d ∪ detect_temporal_clustering accounts 60
            ∪ basicSet accounts ∧
      basicSet accounts ⊆ s ∧
      detect_temporal_clustering accounts 60
        = detect_temporal_clustering (basicLegit accounts) 60 ∧
      detect_dormant_accounts accounts = detect_dormant_accounts (basicLegit accounts) ∧
      detect_low_activity accounts = detect_low_activity (basicLegit accounts) := by
  rw [apply_full_detection] at h
  cases hd : detect_dormant_accounts accounts with
  | error e =>
    rw [hd] at h
    exact absurd h (by simp)
  | ok d =>
    rw [hd] at h
    have hs : s = basicSet accounts ∪ detect_temporal_clustering accounts 60 ∪ d
        ∪ detect_low_activity accounts := (Except.ok.inj h).symm
    refine ⟨d, rfl, hs, ?_, ?_, detect_temporal_pool accounts 60,
      by rw [← hd]; exact detect_dormant_pool accounts, detect_low_pool accounts⟩
    · rw [hs]
      ext u
      simp only [Finset.mem_union]
      tauto
    · rw [hs]
      intro u hu
      simp only [Finset.mem_union]
      tauto

/-- Claim C7 witness: on a concrete two-event snapshot the ensemble
output is exactly the basic set, which it therefore contains. -/
theorem C7_witness : basicSet exC7 ⊆ ({"b1"} : Finset String) := by
  obtain ⟨d, hd, hu, hrev, hsub, hrest⟩ := C7_theorem exC7 {"b1"} (by decide)
  exact hsub

/-- Claim C8: time bucketing (daily and ISO-weekly) produces one
bucket per period containing at least one event, ordered ascending,
counting an event as fake iff its username is in the fake set and real
otherwise; a period with zero events never appears. -/
theorem C8_theorem (accounts : List Account) (fake : Finset String) :
    ((create_timeline_buckets accounts fake).map Prod.fst).Sorted (· < ·) ∧
    (∀ d : ℤ, d ∈ (create_timeline_buckets accounts fake).map Prod.fst ↔
      ∃ a ∈ accounts, dayOf a.starred_at = d) ∧
    (∀ b ∈ create_timeline_buckets accounts fake,
      b.2.1 = dailyRealCount accounts fake b.1 ∧
      b.2.2 = dailyFakeCount accounts fake b.1 ∧
      b.2.1 + b.2.2
        = (accounts.filter (fun a => decide (dayOf a.starred_at = b.1))).length ∧
      0 < b.2.1 + b.2.2) ∧
    (all_weeks accounts).Sorted (· < ·) ∧
    (∀ w, w ∈ all_weeks accounts ↔ ∃ a ∈ accounts, weekKeyOf a.starred_at = w) ∧
    (∀ w ∈ all_weeks accounts,
      weeklyRealCount accounts fake w + weeklyFakeCount accounts fake w
        = (accounts.filter (fun a => weekKeyEqb (weekKeyOf a.starred_at) w)).length ∧
      0 < weeklyRealCount accounts fake w + weeklyFakeCount accounts fake w) := by
  have hmap : (create_timeline_buckets accounts fake).map Prod.fst = all_dates accounts := by
    rw [create_timeline_buckets, List.map_map]
    exact List.map_id'' (fun x => rfl) _
  refine ⟨?_, ?_, ?_, ?_, ?_, ?_⟩
  · rw [hmap]
    exact sorted_sortedDedup _
  · intro dd
    rw [hmap, all_dates, mem_sortedDedup, List.mem_map]
  · intro b hb
    rw [create_timeline_buckets] at hb
    rcases List.mem_map.mp hb with ⟨d0, hd0, rfl⟩
    have hsplit : dailyRealCount accounts fake d0 + dailyFakeCount accounts fake d0
        = (accounts.filter (fun a => decide (dayOf a.starred_at = d0))).length := by
      rw [dailyRealCount, dailyFakeCount]
      simp only [Bool.decide_and, decide_not]
      exact filter_bool_split (fun a => decide (dayOf a.starred_at = d0))
        (fun a => decide (a.username ∈ fake)) accounts
    refine ⟨rfl, rfl, hsplit, ?_⟩
    rw [all_dates, mem_sortedDedup] at hd0
    rcases List.mem_map.mp hd0 with ⟨a, ha, hda⟩
    have hfm : a ∈ accounts.filter (fun x => decide (dayOf x.starred_at = d0)) :=
      List.mem_filter.mpr ⟨ha, by simp [hda]⟩
    have hpos : 0 < (accounts.filter
        (fun x => decide (dayOf x.starred_at = d0))).length :=
      List.length_pos.mpr (List.ne_nil_of_mem hfm)
    rw [hsplit]
    exact hpos
  · exact sorted_sortedDedup _
  · intro w
    rw [all_weeks, mem_sortedDedup, List.mem_map]
  · intro w hw
    have hsplit : (accounts.filter
          (fun a => weekKeyEqb (weekKeyOf a.starred_at) w && !decide (a.username ∈ fake))).length
        + (accounts.filter
          (fun a => weekKeyEqb (weekKeyOf a.starred_at) w && decide (a.username ∈ fake))).length
        = (accounts.filter (fun a => weekKeyEqb (weekKeyOf a.starred_at) w)).length :=
      filter_bool_split _ _ accounts
    rw [all_weeks, mem_sortedDedup] at hw
    rcases List.mem_map.mp hw with ⟨a, ha, hwa⟩
    have hfm : a ∈ accounts.filter (fun x => weekKeyEqb (weekKeyOf x.starred_at) w) :=
      List.mem_filter.mpr ⟨ha, (weekKeyEqb_iff _ _).mpr hwa⟩
    have hpos : 0 < (accounts.filter
        (fun x => weekKeyEqb (weekKeyOf x.starred_at) w)).length :=
      List.length_pos.mpr (List.ne_nil_of_mem hfm)
    have hpos2 : 0 < (accounts.filter
          (fun a => weekKeyEqb (weekKeyOf a.starred_at) w && !decide (a.username ∈ fake))).length
        + (accounts.filter
          (fun a => weekKeyEqb (weekKeyOf a.starred_at) w && decide (a.username ∈ fake))).length := by
      rw [hsplit]
      exact hpos
    exact ⟨hsplit, hpos2⟩

/-- Claim C8 witness: two events on the same calendar day aggregate
into the single bucket `(day 0, 2 real, 0 fake)`, which is nonempty. -/
theorem C8_witness :
    create_timeline_buckets exC8 ∅ = [((0 : ℤ), 2, 0)] ∧
    (0 : ℕ) < 2 + 0 := by
  have hbe : create_timeline_buckets exC8 ∅ = [((0 : ℤ), 2, 0)] := by decide
  have hmem : ((0 : ℤ), (2 : ℕ), (0 : ℕ)) ∈ create_timeline_buckets exC8 ∅ := by
    rw [hbe]
    exact List.mem_singleton.mpr rfl
  have h := (C8_theorem exC8 ∅).2.2.1 ((0 : ℤ), (2 : ℕ), (0 : ℕ)) hmem
  exact ⟨hbe, h.2.2.2⟩

/-- Claim C9: the advanced union is disjoint from the basic set (under
the data model's username uniqueness), so the reported
`total_fake = basic count + advanced count` equals the cardinality of
the combined fake set and never double-counts a username. -/
theorem C9_theorem (accounts : List Account) (d : Finset String)
    (hnodup : (accounts.map Account.username).Nodup)
    (hok : detect_dormant_accounts accounts = .ok d) :
    advancedUnion accounts d ∩ basicSet accounts = ∅ ∧
    total_fake accounts d = (basicSet accounts ∪ advancedUnion accounts d).card := by
  have hadv : ∀ u ∈ advancedUnion accounts d, ∃ a ∈ basicLegit accounts, a.username = u := by
    intro u hu
    rw [advancedUnion] at hu
    rcases Finset.mem_union.mp hu with hu1 | hu2
    · rcases Finset.mem_union.mp hu1 with ht | hd2
      · exact temporalClusterSet_subset accounts 60 u ht
      · exact detect_dormant_subset accounts d hok u hd2
    · exact detect_low_subset accounts u hu2
  have hdisj : ∀ u, u ∈ advancedUnion accounts d → u ∉ basicSet accounts := by
    intro u hu hb
    rcases hadv u hu with ⟨a, ha, rfl⟩
    rw [basicSet, List.mem_toFinset] at hb
    rcases List.mem_map.mp hb with ⟨b, hbf, hbu⟩
    have hbacc : b ∈ accounts := (List.mem_filter.mp hbf).1
    have haacc : a ∈ accounts := (List.mem_filter.mp ha).1
    have hba : b = a := List.inj_on_of_nodup_map hnodup hbacc haacc hbu
    subst hba
    have h1 : basicFlag b = true := (List.mem_filter.mp hbf).2
    have h2 := (List.mem_filter.mp ha).2
    rw [h1] at h2
    simp at h2
  constructor
  · exact Finset.eq_empty_iff_forall_not_mem.mpr
      (fun u hu => hdisj u (Finset.mem_inter.mp hu).1 (Finset.mem_inter.mp hu).2)
  · rw [total_fake]
    have hdisj2 : Disjoint (basicSet accounts) (advancedUnion accounts d) := by
      rw [Finset.disjoint_right]
      intro u hu
      exact hdisj u hu
    rw [Finset.card_union_of_disjoint hdisj2]
    congr 1
    rw [basicSet]
    have hsub : ((accounts.filter basicFlag).map Account.username).Sublist
        (accounts.map Account.username) :=
      List.Sublist.map _ (List.filter_sublist _)
    have hnd : ((accounts.filter basicFlag).map Account.username).Nodup :=
      List.Nodup.sublist hsub hnodup
    rw [List.toFinset_card_of_nodup hnd, List.length_map]

/-- Claim C9 witness: on a concrete snapshot with one basic-flagged
record and one clean record, the counts add without double-counting. -/
theorem C9_witness :
    advancedUnion exC9 ∅ ∩ basicSet exC9 = ∅ ∧
    total_fake exC9 ∅ = (basicSet exC9 ∪ advancedUnion exC9 ∅).card :=
  C9_theorem exC9 ∅ (by decide) (by decide)

end StarHistory
